import Mathlib

/-!
Shallow embedding of the `recordlog` storage engine (quickwit-oss/recordlog)
and proofs about it.

Machine integers (`u64`, `usize`) are modelled as `Nat`; the one place the
source reinterprets unsigned values as `i64` (the `dist` computation in
`MemQueue::append_record`) is modelled with explicit two's-complement
wrapping.  Byte buffers are `List Nat`.  Rust panics (out-of-bounds
indexing, failed `assert!`) are modelled by returning `none` from an
`Option`-valued translation of the function.
-/

namespace Recordlog

/-- Modelled from the spec: the source file `error.rs` declaring the error
enums is not among the sources; §7 of the spec lists `AppendError::Past`,
`AppendError::Future`, and a `MissingQueue` kind lifted into the append
path through `?`. -/
inductive AppendError where
  | past
  | future
  | missingQueue
  deriving DecidableEq, Repr

/-- `RecordMeta` from `src/mem/queue.rs`: a start offset into the
concatenated payload buffer plus the file number backing the record. -/
structure RecordMeta where
  start_offset : Nat
  file_number : Nat
  deriving DecidableEq, Repr

/-- `MemQueue` from `src/mem/queue.rs`. -/
structure MemQueue where
  concatenated_records : List Nat
  start_position : Nat
  record_metas : List RecordMeta
  deriving DecidableEq, Repr

/-- `MemQueue::default()` (all fields defaulted). -/
def MemQueue.empty : MemQueue := ⟨[], 0, []⟩

/-- `MemQueue::with_next_position`. -/
def MemQueue.with_next_position (next_position : Nat) : MemQueue :=
  ⟨[], next_position, []⟩

/-- `MemQueue::next_position`: `start_position + record_metas.len()`. -/
def MemQueue.next_position (q : MemQueue) : Nat :=
  q.start_position + q.record_metas.length

/-- `MemQueue::is_empty`. -/
def MemQueue.is_empty (q : MemQueue) : Bool := q.record_metas.isEmpty

/-- `MemQueue::first_retained_position`: the file number of the first
retained record, if any. -/
def MemQueue.first_retained_position (q : MemQueue) : Option Nat :=
  q.record_metas.head?.map (·.file_number)

/-- Reinterpret a `u64` value (a natural number below `2^64`) as an `i64`,
as Rust's `as i64` cast does. -/
def asI64 (x : Nat) : Int :=
  let r : Nat := x % 2 ^ 64
  if r < 2 ^ 63 then (r : Int) else (r : Int) - 2 ^ 64

/-- Wrap an integer into the `i64` range, as Rust release-mode `i64`
arithmetic does. -/
def wrapI64 (x : Int) : Int := (x + 2 ^ 63) % 2 ^ 64 - 2 ^ 63

/-- `MemQueue::append_record` from `src/mem/queue.rs`.  Returns the Rust
result together with the updated queue.  The `dist` match arms
`i64::MIN..=-1`, `0`, `1`, `2..` are translated in order. -/
def MemQueue.append_record (q : MemQueue) (file_number : Nat)
    (target_position_opt : Option Nat) (payload : List Nat) :
    Except AppendError (Option Nat) × MemQueue :=
  let target_position := target_position_opt.getD q.next_position
  let q := if q.start_position = 0 ∧ q.record_metas = [] then
      { q with start_position := target_position } else q
  let dist := wrapI64 (asI64 q.next_position - asI64 target_position)
  if dist ≤ -1 then (.error .future, q)
  else if dist = 0 then
    (.ok (some target_position),
      { q with
        record_metas :=
          q.record_metas ++ [⟨q.concatenated_records.length, file_number⟩],
        concatenated_records := q.concatenated_records ++ payload })
  else if dist = 1 then (.ok none, q)
  else (.error .past, q)

/-- `MemQueue::position_to_idx` from `src/mem/queue.rs`. -/
def MemQueue.position_to_idx (q : MemQueue) (position : Nat) : Option Nat :=
  if q.start_position > position then some 0
  else
    let idx := position - q.start_position
    if idx > q.record_metas.length then none
    else some idx

/-- One end of a `RangeBounds<u64>` (`std::ops::Bound`). -/
inductive RBound where
  | included (n : Nat)
  | excluded (n : Nat)
  | unbounded
  deriving DecidableEq, Repr

/-- `RangeBounds::contains` for a pair of bounds. -/
def containsPos (lo hi : RBound) (x : Nat) : Bool :=
  (match lo with
   | .included s => decide (s ≤ x)
   | .excluded s => decide (s < x)
   | .unbounded => true) &&
  (match hi with
   | .included e => decide (x ≤ e)
   | .excluded e => decide (x < e)
   | .unbounded => true)

/-- `MemQueue::range` from `src/mem/queue.rs`, with the lazy iterator
materialised as a list.  `(start_idx..len)` is `List.range' start_idx
(len - start_idx)`; the slice `[a..b]` of a list is `take b` then
`drop a`. -/
def MemQueue.rangeList (q : MemQueue) (lo hi : RBound) : List (Nat × List Nat) :=
  let start_idx : Nat :=
    match lo with
    | .included s => (q.position_to_idx s).getD q.record_metas.length
    | .excluded s => (q.position_to_idx s).getD q.record_metas.length + 1
    | .unbounded => 0
  ((List.range' start_idx (q.record_metas.length - start_idx)).takeWhile
      (fun idx => containsPos lo hi (q.start_position + idx))).map
    (fun idx =>
      let position := q.start_position + idx
      let start_offset := (q.record_metas.getD idx ⟨0, 0⟩).start_offset
      match q.record_metas.get? (idx + 1) with
      | some next_record_meta =>
          (position,
            (q.concatenated_records.take next_record_meta.start_offset).drop
              start_offset)
      | none => (position, q.concatenated_records.drop start_offset))

/-- `MemQueue::truncate` from `src/mem/queue.rs`.  The source indexes
`record_metas[first_record_to_keep]` without a bounds check; when that
index is out of range the Rust code panics, modelled here as `none`.
The source's `usize` subtraction on the retained offsets is modelled
with truncated `Nat` subtraction. -/
def MemQueue.truncate (q : MemQueue) (truncate_up_to_pos : Nat) :
    Option MemQueue :=
  if q.start_position > truncate_up_to_pos then some q
  else
    match q.position_to_idx (truncate_up_to_pos + 1) with
    | none =>
        some { q with
          start_position := q.start_position + q.record_metas.length,
          concatenated_records := [],
          record_metas := [] }
    | some first_record_to_keep =>
        match q.record_metas.get? first_record_to_keep with
        | none => none
        | some pivot =>
            let start_offset_to_keep := pivot.start_offset
            some { q with
              record_metas :=
                (q.record_metas.drop first_record_to_keep).map
                  (fun m =>
                    { m with
                      start_offset := m.start_offset - start_offset_to_keep }),
              concatenated_records :=
                q.concatenated_records.drop start_offset_to_keep,
              start_position := q.start_position + first_record_to_keep }

/-- Folding a sequence of position-less `append_record` calls over a queue. -/
def MemQueue.appendAll (q : MemQueue) (file_number : Nat)
    (payloads : List (List Nat)) : MemQueue :=
  payloads.foldl (fun st p => (st.append_record file_number none p).2) q

/-- The record metadata produced by appending `payloads` starting at
payload-buffer offset `off`, all backed by file `fn`. -/
def metasFor (fn : Nat) : Nat → List (List Nat) → List RecordMeta
  | _, [] => []
  | off, p :: rest => ⟨off, fn⟩ :: metasFor fn (off + p.length) rest

/-- The queue state reached by appending `payloads` (without positions)
to a fresh queue. -/
def stateAfter (fn : Nat) (payloads : List (List Nat)) : MemQueue :=
  ⟨payloads.flatten, 0, metasFor fn 0 payloads⟩

theorem wrapI64_zero : wrapI64 0 = 0 := by decide

/-- Appending without a supplied position always takes the happy path:
it returns the queue's `next_position` and pushes the payload. -/
theorem MemQueue.append_record_none (q : MemQueue) (fn : Nat) (p : List Nat) :
    q.append_record fn none p =
      (.ok (some q.next_position),
        ⟨q.concatenated_records ++ p, q.start_position,
          q.record_metas ++ [⟨q.concatenated_records.length, fn⟩]⟩) := by
  obtain ⟨cr, sp, rm⟩ := q
  have hd : ∀ a : Nat, wrapI64 (asI64 a - asI64 a) = 0 := by
    intro a; rw [sub_self, wrapI64_zero]
  by_cases h : sp = 0 ∧ rm = []
  · obtain ⟨h1, h2⟩ := h
    subst h1; subst h2
    simp [append_record, next_position, hd, wrapI64_zero]
  · simp [append_record, next_position, h, hd, wrapI64_zero]

theorem metasFor_length (fn : Nat) (ps : List (List Nat)) :
    ∀ off, (metasFor fn off ps).length = ps.length := by
  induction ps with
  | nil => intro off; rfl
  | cons p rest ih => intro off; simp [metasFor, ih]

theorem metasFor_append (fn : Nat) (ps : List (List Nat)) (p : List Nat) :
    ∀ off, metasFor fn off (ps ++ [p]) =
      metasFor fn off ps ++ [⟨off + ps.flatten.length, fn⟩] := by
  induction ps with
  | nil => intro off; simp [metasFor]
  | cons q rest ih =>
    intro off
    show (⟨off, fn⟩ : RecordMeta) :: metasFor fn (off + q.length) (rest ++ [p]) = _
    rw [ih (off + q.length)]
    simp [metasFor, Nat.add_assoc]

theorem metasFor_get? (fn : Nat) (ps : List (List Nat)) :
    ∀ off i, i < ps.length →
      (metasFor fn off ps).get? i =
        some ⟨off + ((ps.take i).flatten).length, fn⟩ := by
  induction ps with
  | nil => intro off i h; cases h
  | cons p rest ih =>
    intro off i h
    cases i with
    | zero => simp [metasFor]
    | succ j =>
      have hj : j < rest.length := by simpa using h
      show (metasFor fn (off + p.length) rest).get? j = _
      rw [ih (off + p.length) j hj]
      simp [List.take_succ_cons, Nat.add_assoc]

theorem stateAfter_snoc (fn : Nat) (ps : List (List Nat)) (p : List Nat) :
    stateAfter fn (ps ++ [p]) =
      ⟨(stateAfter fn ps).concatenated_records ++ p, 0,
        (stateAfter fn ps).record_metas ++
          [⟨(stateAfter fn ps).concatenated_records.length, fn⟩]⟩ := by
  simp [stateAfter, metasFor_append]

theorem appendAll_stateAfter (fn : Nat) (qs : List (List Nat)) :
    ∀ ps, (stateAfter fn ps).appendAll fn qs = stateAfter fn (ps ++ qs) := by
  induction qs with
  | nil => intro ps; simp [MemQueue.appendAll]
  | cons p rest ih =>
    intro ps
    have hpush : ((stateAfter fn ps).append_record fn none p).2 =
        stateAfter fn (ps ++ [p]) := by
      rw [MemQueue.append_record_none, stateAfter_snoc]
      rfl
    calc (stateAfter fn ps).appendAll fn (p :: rest)
        = (((stateAfter fn ps).append_record fn none p).2).appendAll fn rest := rfl
      _ = (stateAfter fn (ps ++ [p])).appendAll fn rest := by rw [hpush]
      _ = stateAfter fn ((ps ++ [p]) ++ rest) := ih (ps ++ [p])
      _ = stateAfter fn (ps ++ p :: rest) := by simp

theorem flatten_take_flatten (ps : List (List Nat)) (n : Nat) :
    ps.flatten.take ((ps.take n).flatten.length) = (ps.take n).flatten := by
  have h : ps.flatten = (ps.take n).flatten ++ (ps.drop n).flatten := by
    rw [← List.flatten_append, List.take_append_drop]
  rw [h, List.take_left]

theorem flatten_drop_flatten (ps : List (List Nat)) (n : Nat) :
    ps.flatten.drop ((ps.take n).flatten.length) = (ps.drop n).flatten := by
  have h : ps.flatten = (ps.take n).flatten ++ (ps.drop n).flatten := by
    rw [← List.flatten_append, List.take_append_drop]
  rw [h, List.drop_left]

theorem take_succ_of_lt (ps : List (List Nat)) (i : Nat) (h : i < ps.length) :
    ps.take (i + 1) = ps.take i ++ [ps.getD i []] := by
  rw [List.take_succ]
  congr 1
  simp [List.getElem?_eq_getElem h]

theorem slice_take_succ (ps : List (List Nat)) (i : Nat) (h : i < ps.length) :
    (ps.flatten.take ((ps.take (i + 1)).flatten.length)).drop
        ((ps.take i).flatten.length) = ps.getD i [] := by
  rw [flatten_take_flatten, take_succ_of_lt ps i h, List.flatten_append]
  rw [List.drop_left]
  simp

theorem slice_last (ps : List (List Nat)) (i : Nat) (h : i + 1 = ps.length) :
    ps.flatten.drop ((ps.take i).flatten.length) = ps.getD i [] := by
  rw [flatten_drop_flatten]
  have hi : i < ps.length := by omega
  have hdrop : ps.drop i = [ps.getD i []] := by
    rw [List.drop_eq_getElem_cons hi, List.drop_eq_nil_of_le (by omega)]
    simp [List.getD_eq_getElem?_getD, List.getElem?_eq_getElem hi]
  rw [hdrop]
  simp

/-- `range(0..)` on the state reached by `n` position-less appends yields
exactly the payloads, enumerated from position `0`. -/
theorem map_range'_enum {α : Type} (f : Nat → Nat × α) (l : List α)
    (hf : ∀ i (h : i < l.length), f i = (i, l.get ⟨i, h⟩)) :
    (List.range' 0 l.length).map f = l.enum := by
  apply List.ext_getElem?
  intro n
  by_cases hn : n < l.length
  · rw [List.getElem?_map, List.getElem?_range' 0 1 hn, List.getElem?_enum,
      List.getElem?_eq_getElem hn]
    simp [hf n hn]
  · have h1 : ((List.range' 0 l.length).map f)[n]? = none := by
      apply List.getElem?_eq_none
      simp only [List.length_map, List.length_range']
      omega
    have h2 : (l.enum)[n]? = none := by
      apply List.getElem?_eq_none
      simp only [List.enum_length]
      omega
    rw [h1, h2]

theorem rangeList_stateAfter (fn : Nat) (ps : List (List Nat)) :
    (stateAfter fn ps).rangeList (.included 0) .unbounded = ps.enum := by
  have hidx : (stateAfter fn ps).position_to_idx 0 = some 0 := by
    simp [stateAfter, MemQueue.position_to_idx]
  have hlen : (stateAfter fn ps).record_metas.length = ps.length := by
    simp [stateAfter, metasFor_length]
  unfold MemQueue.rangeList
  simp only [hidx, Option.getD_some, hlen, Nat.sub_zero]
  rw [List.takeWhile_eq_self_iff.mpr (by intro x _; simp [containsPos])]
  apply map_range'_enum
  intro n hn
  have hsp : (stateAfter fn ps).start_position = 0 := rfl
  have hgetD : (stateAfter fn ps).record_metas.getD n ⟨0, 0⟩ =
      ⟨((ps.take n).flatten).length, fn⟩ := by
    show (metasFor fn 0 ps).getD n ⟨0, 0⟩ = _
    rw [List.getD_eq_getElem?_getD, ← List.get?_eq_getElem?,
      metasFor_get? fn ps 0 n hn]
    simp
  by_cases hn1 : n + 1 < ps.length
  · have hget1 : (stateAfter fn ps).record_metas.get? (n + 1) =
        some ⟨((ps.take (n + 1)).flatten).length, fn⟩ := by
      show (metasFor fn 0 ps).get? (n + 1) = _
      rw [metasFor_get? fn ps 0 (n + 1) hn1]
      simp
    simp only [hsp, hgetD, hget1, Nat.zero_add]
    have hsl : ((stateAfter fn ps).concatenated_records.take
          ((ps.take (n + 1)).flatten.length)).drop ((ps.take n).flatten.length)
        = ps.getD n [] := slice_take_succ ps n hn
    simp only [stateAfter] at hsl ⊢
    rw [hsl]
    simp [List.getD_eq_getElem?_getD, List.getElem?_eq_getElem hn]
  · have hn1' : n + 1 = ps.length := by omega
    have hget1 : (stateAfter fn ps).record_metas.get? (n + 1) = none := by
      show (metasFor fn 0 ps).get? (n + 1) = none
      rw [List.get?_eq_getElem?]
      apply List.getElem?_eq_none
      rw [metasFor_length]
      omega
    simp only [hsp, hgetD, hget1, Nat.zero_add]
    have hsl : (stateAfter fn ps).concatenated_records.drop
          ((ps.take n).flatten.length) = ps.getD n [] := slice_last ps n hn1'
    simp only [stateAfter] at hsl ⊢
    rw [hsl]
    simp [List.getD_eq_getElem?_getD, List.getElem?_eq_getElem hn]

/-- Claim C1: append/read round-trip.  For every sequence of
`append_record` calls without a supplied position on a fresh queue,
iterating `range(0..)` afterwards yields exactly the appended payloads,
in append order, paired with positions 0, 1, 2, …. -/
theorem claim_c1_append_read_round_trip (fn : Nat) (payloads : List (List Nat)) :
    (MemQueue.empty.appendAll fn payloads).rangeList (.included 0) .unbounded
      = payloads.enum := by
  have h0 : MemQueue.empty = stateAfter fn [] := rfl
  rw [h0, appendAll_stateAfter fn payloads []]
  simp only [List.nil_append]
  exact rangeList_stateAfter fn payloads

/-- Claim C10: `range` clamps out-of-range low inclusive bounds instead of
erroring.  A start bound strictly below `start_position` yields all
retained records (the same as an unbounded start), and a start bound past
the last retained position yields the empty iterator. -/
theorem claim_c10_range_clamps (q : MemQueue) (s : Nat) :
    (s < q.start_position →
      q.rangeList (.included s) .unbounded = q.rangeList .unbounded .unbounded) ∧
    (q.start_position + q.record_metas.length ≤ s →
      q.rangeList (.included s) .unbounded = []) := by
  constructor
  · intro hs
    unfold MemQueue.rangeList
    have hidx : q.position_to_idx s = some 0 := by
      simp [MemQueue.position_to_idx, hs]
    simp only [hidx, Option.getD_some]
    rw [List.takeWhile_eq_self_iff.mpr
        (by intro x _; simp [containsPos]; omega),
      List.takeWhile_eq_self_iff.mpr
        (by intro x _; simp [containsPos])]
  · intro hs
    unfold MemQueue.rangeList
    have hidx : (q.position_to_idx s).getD q.record_metas.length =
        q.record_metas.length := by
      unfold MemQueue.position_to_idx
      split_ifs with h1
      · exact absurd h1 (by omega)
      · dsimp only
        split_ifs with h2
        · rfl
        · simp only [Option.getD_some]
          omega
    simp only [hidx, Nat.sub_self]
    simp

/-- Claim C10 witness: the general theorem applied at a concrete queue
holding positions 4 and 5, with bounds 0 (below the start) and 7 (past the
last position). -/
theorem claim_c10_range_clamps_witness :
    (MemQueue.rangeList ⟨[10, 20], 4, [⟨0, 1⟩, ⟨1, 1⟩]⟩ (.included 0) .unbounded =
      MemQueue.rangeList ⟨[10, 20], 4, [⟨0, 1⟩, ⟨1, 1⟩]⟩ .unbounded .unbounded) ∧
    (MemQueue.rangeList ⟨[10, 20], 4, [⟨0, 1⟩, ⟨1, 1⟩]⟩ (.included 7) .unbounded = []) :=
  ⟨(claim_c10_range_clamps ⟨[10, 20], 4, [⟨0, 1⟩, ⟨1, 1⟩]⟩ 0).1 (by decide),
   (claim_c10_range_clamps ⟨[10, 20], 4, [⟨0, 1⟩, ⟨1, 1⟩]⟩ 7).2 (by decide)⟩

/-- Claim C3 (code bug): on a non-empty queue, `truncate(up_to_pos)` with
`up_to_pos` equal to exactly the last retained position makes
`MemQueue::truncate` read `record_metas[record_metas.len()]` — out of
bounds, a panic (modelled as `none`) — instead of clearing the queue.
One position further (`up_to_pos ≥ next_position`) the clearing branch is
taken and behaves as the claim describes. -/
theorem claim_c3_truncate_at_last_position_panics :
    MemQueue.truncate ⟨[104], 0, [⟨0, 1⟩]⟩ 0 = none ∧
    MemQueue.truncate ⟨[104], 0, [⟨0, 1⟩]⟩ 1 = some ⟨[], 1, []⟩ := by decide

/-- Claim C5 (code bug): `truncate` does drop exactly the records at
positions `≤ up_to_pos` and compact the retained offsets when
`up_to_pos` is strictly below the last position (first two conjuncts:
truncating the queue holding positions 4, 5 at 4 keeps position 5 with its
payload, and `range` then yields it unchanged), but at `up_to_pos` equal to
the last position the code panics (`none`) instead of clearing the queue
(last conjunct). -/
theorem claim_c5_truncate_compacts_but_panics_at_last :
    MemQueue.truncate ⟨[7, 8, 9], 4, [⟨0, 1⟩, ⟨1, 2⟩]⟩ 4 =
      some ⟨[8, 9], 5, [⟨0, 2⟩]⟩ ∧
    MemQueue.rangeList ⟨[8, 9], 5, [⟨0, 2⟩]⟩ .unbounded .unbounded =
      [(5, [8, 9])] ∧
    MemQueue.truncate ⟨[7, 8, 9], 4, [⟨0, 1⟩, ⟨1, 2⟩]⟩ 5 = none := by decide

/-- `Truncation` from `src/mem/queues.rs` (`RemoveFiles(..n)` carries the
exclusive upper file number). -/
inductive Truncation where
  | noTruncation
  | removeFiles (upTo : Nat)
  | removeAllFiles
  deriving DecidableEq, Repr

/-- Association-list lookup standing in for `HashMap::get`. -/
def lookupQueue : List (String × MemQueue) → String → Option MemQueue
  | [], _ => none
  | (k, v) :: rest, queue => if k = queue then some v else lookupQueue rest queue

/-- Replace the value stored under a key (the effect of mutating through
`HashMap::get_mut`). -/
def modifyQueue : List (String × MemQueue) → String → MemQueue →
    List (String × MemQueue)
  | [], _, _ => []
  | (k, v) :: rest, queue, q =>
      if k = queue then (k, q) :: rest else (k, v) :: modifyQueue rest queue q

/-- `MemQueues` from `src/mem/queues.rs`: the `HashMap<String, MemQueue>`
is modelled as an association list, new queues being appended at the
end. -/
structure MemQueues where
  queues : List (String × MemQueue)
  lowest_retained_file_number : Option Nat
  deriving DecidableEq, Repr

/-- `MemQueues::get_or_create_queue_mut`: the queue under the name (created
as `MemQueue::default()` when absent) together with the updated map. -/
def MemQueues.get_or_create (qs : MemQueues) (queue : String) :
    MemQueue × MemQueues :=
  match lookupQueue qs.queues queue with
  | some q => (q, qs)
  | none =>
      (MemQueue.empty,
        { qs with queues := qs.queues ++ [(queue, MemQueue.empty)] })

/-- Writing a mutated queue back (the end of the `get_mut` borrow). -/
def MemQueues.setQueue (qs : MemQueues) (queue : String) (q : MemQueue) :
    MemQueues :=
  { qs with queues := modifyQueue qs.queues queue q }

/-- `MemQueues::append_record` from `src/mem/queues.rs`: forwards to the
queue (created when absent), propagates errors with `?`, then initialises
`lowest_retained_file_number` when unset. -/
def MemQueues.append_record (qs : MemQueues) (queue : String)
    (file_number : Nat) (position_opt : Option Nat) (record : List Nat) :
    Except AppendError (Option Nat) × MemQueues :=
  let gc := qs.get_or_create queue
  let res := gc.1.append_record file_number position_opt record
  let qs1 := gc.2.setQueue queue res.2
  match res.1 with
  | .error e => (.error e, qs1)
  | .ok r =>
      if qs1.lowest_retained_file_number = none then
        (.ok r, { qs1 with lowest_retained_file_number := some file_number })
      else (.ok r, qs1)

/-- The `for queue in self.queues.values()` loop of `MemQueues::truncate`:
returns `none` on the `assert!` panic, `some none` on the early
`return Truncation::NoTruncation`, and `some (some min_opt)` when the loop
finishes with `min_retained_file_number_opt = min_opt`. -/
def truncLoop (previous : Nat) :
    Option Nat → List (String × MemQueue) → Option (Option (Option Nat))
  | min_opt, [] => some (some min_opt)
  | min_opt, (_, mq) :: rest =>
      match mq.first_retained_position with
      | none => truncLoop previous min_opt rest
      | some f =>
          if f ≥ previous then
            if f = previous then some none
            else truncLoop previous (some (Nat.min (min_opt.getD f) f)) rest
          else none

/-- `MemQueues::truncate` from `src/mem/queues.rs`.  `none` models a panic
(either the `assert!` failures or the out-of-bounds panic inside
`MemQueue::truncate`). -/
def MemQueues.truncate (qs : MemQueues) (queue : String) (position : Nat) :
    Option (Truncation × MemQueues) :=
  match qs.lowest_retained_file_number with
  | none => some (.noTruncation, qs)
  | some previous_lowest =>
      let gc := qs.get_or_create queue
      match gc.1.truncate position with
      | none => none
      | some q' =>
          let qs2 := gc.2.setQueue queue q'
          match truncLoop previous_lowest none qs2.queues with
          | none => none
          | some none => some (.noTruncation, qs2)
          | some (some min_opt) =>
              let qs3 :=
                { qs2 with lowest_retained_file_number := min_opt }
              match min_opt with
              | some m =>
                  if m ≥ previous_lowest then
                    if m = previous_lowest then some (.noTruncation, qs3)
                    else some (.removeFiles m, qs3)
                  else none
              | none => some (.removeAllFiles, qs3)

theorem lookupQueue_modify_ne (l : List (String × MemQueue)) (q1 q2 : String)
    (v : MemQueue) (h : q1 ≠ q2) :
    lookupQueue (modifyQueue l q1 v) q2 = lookupQueue l q2 := by
  induction l with
  | nil => rfl
  | cons kv rest ih =>
    obtain ⟨k, w⟩ := kv
    by_cases hk : k = q1
    · subst hk
      simp only [modifyQueue, if_pos rfl, lookupQueue]
      rw [if_neg h, if_neg h]
    · simp only [modifyQueue, if_neg hk, lookupQueue]
      by_cases hk2 : k = q2
      · rw [if_pos hk2, if_pos hk2]
      · rw [if_neg hk2, if_neg hk2, ih]

theorem lookupQueue_append_ne (l : List (String × MemQueue)) (q1 q2 : String)
    (v : MemQueue) (h : q1 ≠ q2) :
    lookupQueue (l ++ [(q1, v)]) q2 = lookupQueue l q2 := by
  induction l with
  | nil =>
    simp only [List.nil_append, lookupQueue]
    rw [if_neg h]
  | cons kv rest ih =>
    obtain ⟨k, w⟩ := kv
    simp only [List.cons_append, lookupQueue]
    by_cases hk : k = q2
    · rw [if_pos hk, if_pos hk]
    · rw [if_neg hk, if_neg hk]
      exact ih

/-- Every state `MemQueues::truncate` can return has a queue map obtained
from the input map by at most creating and then overwriting the truncated
queue's own entry. -/
theorem truncate_queues_shape (qs : MemQueues) (q1 : String) (pos : Nat)
    (t : Truncation) (qs' : MemQueues)
    (h : qs.truncate q1 pos = some (t, qs')) :
    qs'.queues = qs.queues ∨
    (∃ q', qs'.queues = modifyQueue qs.queues q1 q') ∨
    (∃ q', qs'.queues =
        modifyQueue (qs.queues ++ [(q1, MemQueue.empty)]) q1 q') := by
  unfold MemQueues.truncate MemQueues.get_or_create MemQueues.setQueue at h
  cases hl : qs.lowest_retained_file_number with
  | none =>
      rw [hl] at h
      cases h
      left; rfl
  | some prev =>
      rw [hl] at h
      cases hlu : lookupQueue qs.queues q1 with
      | some q =>
          rw [hlu] at h
          dsimp only at h
          cases ht : q.truncate pos with
          | none => rw [ht] at h; exact absurd h (by simp)
          | some q2 =>
              rw [ht] at h
              dsimp only at h
              right; left
              refine ⟨q2, ?_⟩
              cases htl : truncLoop prev none (modifyQueue qs.queues q1 q2) with
              | none => rw [htl] at h; exact absurd h (by simp)
              | some o =>
                  rw [htl] at h
                  match o with
                  | none => cases h; rfl
                  | some none => cases h; rfl
                  | some (some m) =>
                      dsimp only at h
                      split_ifs at h with h1 h2
                      · cases h; rfl
                      · cases h; rfl
      | none =>
          rw [hlu] at h
          dsimp only at h
          cases ht : MemQueue.empty.truncate pos with
          | none => rw [ht] at h; exact absurd h (by simp)
          | some q2 =>
              rw [ht] at h
              dsimp only at h
              right; right
              refine ⟨q2, ?_⟩
              cases htl : truncLoop prev none
                  (modifyQueue (qs.queues ++ [(q1, MemQueue.empty)]) q1 q2) with
              | none => rw [htl] at h; exact absurd h (by simp)
              | some o =>
                  rw [htl] at h
                  match o with
                  | none => cases h; rfl
                  | some none => cases h; rfl
                  | some (some m) =>
                      dsimp only at h
                      split_ifs at h with h1 h2
                      · cases h; rfl
                      · cases h; rfl

/-- Claim C6: queue isolation.  When `MemQueues::truncate(q1, pos)` returns
(does not panic), a distinct queue `q2`'s entry — its retained records,
positions, payloads and `next_position` — is untouched. -/
theorem claim_c6_queue_isolation (qs : MemQueues) (q1 q2 : String) (pos : Nat)
    (hne : q1 ≠ q2) (t : Truncation) (qs' : MemQueues)
    (h : qs.truncate q1 pos = some (t, qs')) :
    lookupQueue qs'.queues q2 = lookupQueue qs.queues q2 := by
  rcases truncate_queues_shape qs q1 pos t qs' h with hs | ⟨q', hs⟩ | ⟨q', hs⟩
  · rw [hs]
  · rw [hs, lookupQueue_modify_ne _ _ _ _ hne]
  · rw [hs, lookupQueue_modify_ne _ _ _ _ hne,
      lookupQueue_append_ne _ _ _ _ hne]

/-- Claim C6 witness: truncating queue `"a"` past its last position in a
two-queue state leaves queue `"b"`'s entry untouched. -/
theorem claim_c6_queue_isolation_witness :
    lookupQueue
        (MemQueues.queues
          ⟨[("a", ⟨[], 1, []⟩), ("b", ⟨[2], 0, [⟨0, 1⟩]⟩)], some 1⟩) "b" =
      lookupQueue
        (MemQueues.queues
          ⟨[("a", ⟨[1], 0, [⟨0, 1⟩]⟩), ("b", ⟨[2], 0, [⟨0, 1⟩]⟩)], some 1⟩) "b" :=
  claim_c6_queue_isolation
    ⟨[("a", ⟨[1], 0, [⟨0, 1⟩]⟩), ("b", ⟨[2], 0, [⟨0, 1⟩]⟩)], some 1⟩
    "a" "b" 5 (by decide) .noTruncation
    ⟨[("a", ⟨[], 1, []⟩), ("b", ⟨[2], 0, [⟨0, 1⟩]⟩)], some 1⟩ (by decide)

/-- A log record as written to the write-ahead log (`rolling::Record`,
`src/rolling/record.rs`). -/
inductive WalRecord where
  | appendRecord (position : Nat) (queue : String) (payload : List Nat)
  | truncateRecord (position : Nat) (queue : String)
  | touch (position : Nat) (queue : String)
  deriving DecidableEq, Repr

/-- Modelled from the spec: `MemQueues::next_position` (§4.8: forwarded by
name, lifting a missing queue to `MissingQueue`).  The facade calls this
method but it is absent from this revision of `src/mem/queues.rs`. -/
def MemQueues.next_position (qs : MemQueues) (queue : String) :
    Except AppendError Nat :=
  match lookupQueue qs.queues queue with
  | some q => .ok q.next_position
  | none => .error .missingQueue

/-- The `MultiRecordLog` facade (`src/multi_record_log.rs`).  The rolling
`RecordLogWriter` is modelled by the list of records it has durably
written (`wal`) and by its current file number; `flush` is a no-op on
this abstraction. -/
structure MultiRecordLog where
  wal : List WalRecord
  current_file : Nat
  in_mem_queues : MemQueues
  deriving DecidableEq, Repr

/-- `MultiRecordLog::append_record` from `src/multi_record_log.rs`.  The
source's early returns inside `if let Some(position) = position_opt` are
gathered in `guard`; `None` means fall through to the write path. -/
def MultiRecordLog.append_record (log : MultiRecordLog) (queue : String)
    (position_opt : Option Nat) (payload : List Nat) :
    Except AppendError (Option Nat) × MultiRecordLog :=
  match log.in_mem_queues.next_position queue with
  | .error e => (.error e, log)
  | .ok next_position =>
      let guard : Option (Except AppendError (Option Nat)) :=
        match position_opt with
        | some position =>
            if position > next_position then some (.error .future)
            else if position + 1 = next_position then some (.ok none)
            else if position < next_position then some (.error .past)
            else none
        | none => none
      match guard with
      | some r => (r, log)
      | none =>
          let position := position_opt.getD next_position
          let file_number := log.current_file
          let wal1 := log.wal ++ [WalRecord.appendRecord position queue payload]
          let ar := log.in_mem_queues.append_record queue file_number
            (some position) payload
          match ar.1 with
          | .error e =>
              (.error e, { log with wal := wal1, in_mem_queues := ar.2 })
          | .ok _ =>
              (.ok (some position),
                { log with wal := wal1, in_mem_queues := ar.2 })

/-- Appending at precisely `next_position` also takes the happy path. -/
theorem MemQueue.append_record_at_next (q : MemQueue) (fn : Nat) (p : List Nat) :
    q.append_record fn (some q.next_position) p =
      (.ok (some q.next_position),
        ⟨q.concatenated_records ++ p, q.start_position,
          q.record_metas ++ [⟨q.concatenated_records.length, fn⟩]⟩) := by
  obtain ⟨cr, sp, rm⟩ := q
  have hd : ∀ a : Nat, wrapI64 (asI64 a - asI64 a) = 0 := by
    intro a; rw [sub_self, wrapI64_zero]
  by_cases h : sp = 0 ∧ rm = []
  · obtain ⟨h1, h2⟩ := h
    subst h1; subst h2
    simp [append_record, next_position, hd, wrapI64_zero]
  · simp [append_record, next_position, h, hd, wrapI64_zero]

theorem lookupQueue_modify_self (l : List (String × MemQueue)) (k : String)
    (v v0 : MemQueue) (h : lookupQueue l k = some v0) :
    lookupQueue (modifyQueue l k v) k = some v := by
  induction l with
  | nil => cases h
  | cons kv rest ih =>
    obtain ⟨k0, w⟩ := kv
    by_cases hk : k0 = k
    · subst hk
      simp [modifyQueue, lookupQueue]
    · simp only [lookupQueue, if_neg hk] at h
      simp only [modifyQueue, if_neg hk, lookupQueue, if_neg hk]
      exact ih h

/-- `MemQueues::append_record` at exactly the queue's next position:
succeeds with that position, and the queue's next position advances by
one. -/
theorem MemQueues.append_record_advances (qs : MemQueues) (queue : String)
    (fn : Nat) (payload : List Nat) (n : Nat)
    (h : qs.next_position queue = .ok n) :
    (qs.append_record queue fn (some n) payload).1 = .ok (some n) ∧
    ((qs.append_record queue fn (some n) payload).2).next_position queue =
      .ok (n + 1) := by
  unfold MemQueues.next_position at h
  cases hl : lookupQueue qs.queues queue with
  | none => rw [hl] at h; cases h
  | some q =>
      rw [hl] at h
      have hn : q.next_position = n := by
        cases h; rfl
      unfold MemQueues.append_record MemQueues.get_or_create
        MemQueues.setQueue
      rw [hl]
      dsimp only
      rw [← hn, MemQueue.append_record_at_next]
      dsimp only
      have hl2 := lookupQueue_modify_self qs.queues queue
        ⟨q.concatenated_records ++ payload, q.start_position,
          q.record_metas ++ [⟨q.concatenated_records.length, fn⟩]⟩ q hl
      constructor
      · split_ifs <;> rfl
      · have hnext : (⟨q.concatenated_records ++ payload, q.start_position,
            q.record_metas ++ [⟨q.concatenated_records.length, fn⟩]⟩ :
              MemQueue).next_position = q.next_position + 1 := by
          simp [MemQueue.next_position]
          omega
        split_ifs <;>
          simp only [MemQueues.next_position, hl2, hnext]

/-- Claim C2: facade append position discipline.  With `next_position n`:
`Some p` with `p > n` returns `Future` (state untouched); `p + 1 = n`
returns `Ok(None)` with no write and the state unchanged; `p < n` with
`p + 1 ≠ n` returns `Past`; and `p = n` (or no position) appends — the
record is written to the log, `Ok(Some(n))` is returned, and the queue's
next position becomes `n + 1`. -/
theorem claim_c2_append_position_discipline (log : MultiRecordLog)
    (queue : String) (n : Nat) (payload : List Nat)
    (h : log.in_mem_queues.next_position queue = .ok n) :
    (∀ p, p > n →
      log.append_record queue (some p) payload = (.error .future, log)) ∧
    (∀ p, p + 1 = n →
      log.append_record queue (some p) payload = (.ok none, log)) ∧
    (∀ p, p < n → p + 1 ≠ n →
      log.append_record queue (some p) payload = (.error .past, log)) ∧
    ((log.append_record queue (some n) payload).1 = .ok (some n) ∧
      (log.append_record queue (some n) payload).2.wal =
        log.wal ++ [WalRecord.appendRecord n queue payload] ∧
      (log.append_record queue (some n) payload).2.in_mem_queues.next_position
          queue = .ok (n + 1)) ∧
    ((log.append_record queue none payload).1 = .ok (some n) ∧
      (log.append_record queue none payload).2.wal =
        log.wal ++ [WalRecord.appendRecord n queue payload] ∧
      (log.append_record queue none payload).2.in_mem_queues.next_position
          queue = .ok (n + 1)) := by
  have hmem := MemQueues.append_record_advances log.in_mem_queues queue
    log.current_file payload n h
  refine ⟨?_, ?_, ?_, ?_, ?_⟩
  · intro p hp
    unfold MultiRecordLog.append_record
    rw [h]
    dsimp only
    rw [if_pos hp]
  · intro p hp
    unfold MultiRecordLog.append_record
    rw [h]
    dsimp only
    rw [if_neg (by omega), if_pos hp]
  · intro p hp hp1
    unfold MultiRecordLog.append_record
    rw [h]
    dsimp only
    rw [if_neg (by omega), if_neg hp1, if_pos hp]
  · unfold MultiRecordLog.append_record
    rw [h]
    dsimp only
    rw [if_neg (by omega), if_neg (by omega), if_neg (by omega)]
    dsimp only
    simp only [Option.getD_some]
    obtain ⟨h1, h2⟩ := hmem
    cases har : (log.in_mem_queues.append_record queue log.current_file
        (some n) payload).1 with
    | error e => rw [har] at h1; cases h1
    | ok r =>
        rw [har] at h1
        cases h1
        exact ⟨rfl, rfl, h2⟩
  · unfold MultiRecordLog.append_record
    rw [h]
    dsimp only
    simp only [Option.getD_none]
    obtain ⟨h1, h2⟩ := hmem
    cases har : (log.in_mem_queues.append_record queue log.current_file
        (some n) payload).1 with
    | error e => rw [har] at h1; cases h1
    | ok r =>
        rw [har] at h1
        cases h1
        exact ⟨rfl, rfl, h2⟩

/-- Claim C2 witness: the discipline applied to a concrete log whose queue
`"q"` holds positions 0 and 1 (`next_position = 2`): position 5 is
`Future`, position 1 is idempotent `Ok(None)` with the state unchanged,
position 0 is `Past`, position 2 appends and returns `Ok(Some 2)`, and an
append without a position advances `next_position` to 3. -/
theorem claim_c2_append_position_discipline_witness :
    (MultiRecordLog.append_record
        ⟨[], 3, ⟨[("q", ⟨[5, 6], 0, [⟨0, 1⟩, ⟨1, 1⟩]⟩)], some 1⟩⟩
        "q" (some 5) [9] =
      (.error .future,
        ⟨[], 3, ⟨[("q", ⟨[5, 6], 0, [⟨0, 1⟩, ⟨1, 1⟩]⟩)], some 1⟩⟩)) ∧
    (MultiRecordLog.append_record
        ⟨[], 3, ⟨[("q", ⟨[5, 6], 0, [⟨0, 1⟩, ⟨1, 1⟩]⟩)], some 1⟩⟩
        "q" (some 1) [9] =
      (.ok none,
        ⟨[], 3, ⟨[("q", ⟨[5, 6], 0, [⟨0, 1⟩, ⟨1, 1⟩]⟩)], some 1⟩⟩)) ∧
    (MultiRecordLog.append_record
        ⟨[], 3, ⟨[("q", ⟨[5, 6], 0, [⟨0, 1⟩, ⟨1, 1⟩]⟩)], some 1⟩⟩
        "q" (some 0) [9] =
      (.error .past,
        ⟨[], 3, ⟨[("q", ⟨[5, 6], 0, [⟨0, 1⟩, ⟨1, 1⟩]⟩)], some 1⟩⟩)) ∧
    ((MultiRecordLog.append_record
        ⟨[], 3, ⟨[("q", ⟨[5, 6], 0, [⟨0, 1⟩, ⟨1, 1⟩]⟩)], some 1⟩⟩
        "q" (some 2) [9]).1 = .ok (some 2)) ∧
    ((MultiRecordLog.append_record
        ⟨[], 3, ⟨[("q", ⟨[5, 6], 0, [⟨0, 1⟩, ⟨1, 1⟩]⟩)], some 1⟩⟩
        "q" none [9]).2.in_mem_queues.next_position "q" = .ok 3) :=
  have h : (MultiRecordLog.in_mem_queues
      ⟨[], 3, ⟨[("q", ⟨[5, 6], 0, [⟨0, 1⟩, ⟨1, 1⟩]⟩)], some 1⟩⟩).next_position
        "q" = .ok 2 := rfl
  have C := claim_c2_append_position_discipline
    ⟨[], 3, ⟨[("q", ⟨[5, 6], 0, [⟨0, 1⟩, ⟨1, 1⟩]⟩)], some 1⟩⟩ "q" 2 [9] h
  ⟨C.1 5 (by decide), C.2.1 1 (by decide), C.2.2.1 0 (by decide) (by decide),
    C.2.2.2.1.1, C.2.2.2.2.2.2⟩

/-- Claim C9: first writer wins on idempotent duplicates.  When the last
assigned position of `queue` is `p` (so `next_position = p + 1`), a
facade append at `Some p` with any payload — including one different from
the payload stored at `p` — returns `Ok(None)` and leaves the whole state
(wal and queues, hence the payload stored at `p`) unchanged; the payload
is never compared. -/
theorem claim_c9_first_writer_wins (log : MultiRecordLog) (queue : String)
    (p : Nat) (payload2 : List Nat)
    (h : log.in_mem_queues.next_position queue = .ok (p + 1)) :
    log.append_record queue (some p) payload2 = (.ok none, log) := by
  unfold MultiRecordLog.append_record
  rw [h]
  dsimp only
  rw [if_neg (by omega), if_pos rfl]

/-- Claim C9 witness: queue `"q"` stores payload `[1]` at its last
position 0; retrying position 0 with the different payload `[9, 9]`
returns `Ok(None)` and the stored state is bit-for-bit the original. -/
theorem claim_c9_first_writer_wins_witness :
    MultiRecordLog.append_record
        ⟨[], 1, ⟨[("q", ⟨[1], 0, [⟨0, 1⟩]⟩)], some 1⟩⟩ "q" (some 0) [9, 9] =
      (.ok none, ⟨[], 1, ⟨[("q", ⟨[1], 0, [⟨0, 1⟩]⟩)], some 1⟩⟩) :=
  claim_c9_first_writer_wins
    ⟨[], 1, ⟨[("q", ⟨[1], 0, [⟨0, 1⟩]⟩)], some 1⟩⟩ "q" 0 [9, 9] rfl

/-- `BLOCK_LEN` (`src/frame/mod.rs`). -/
def BLOCK_LEN : Nat := 32768

/-- `HEADER_LEN` (`src/lib.rs`): 4-byte checksum, 2-byte length, 1 type
byte. -/
def HEADER_LEN : Nat := 7

/-- One round of the reflected CRC-32 (IEEE) bit loop. -/
def crc32round (c : Nat) : Nat :=
  if c % 2 = 1 then Nat.xor (c >>> 1) 0xEDB88320 else c >>> 1

/-- Fold one byte into the CRC-32 state (eight bit rounds). -/
def crc32byte (c b : Nat) : Nat :=
  crc32round (crc32round (crc32round (crc32round
    (crc32round (crc32round (crc32round (crc32round (Nat.xor c (b % 256)))))))))

/-- `crc32` (`src/lib.rs`, via the `crc32fast` crate): the standard CRC-32
(IEEE, reflected, polynomial `0xEDB88320`, initial value and final xor
`0xFFFFFFFF`). -/
def crc32 (data : List Nat) : Nat :=
  Nat.xor (data.foldl crc32byte 0xFFFFFFFF) 0xFFFFFFFF

/-- Frame types, `FULL=1, FIRST=2, MIDDLE=3, LAST=4` (`src/lib.rs`). -/
inductive FrameType where
  | full
  | first
  | middle
  | last
  deriving DecidableEq, Repr

/-- The type byte written for a frame type. -/
def FrameType.toU8 : FrameType → Nat
  | .full => 1
  | .first => 2
  | .middle => 3
  | .last => 4

/-- `RecordType::from_u8` (`src/lib.rs`): only 1–4 are valid. -/
def FrameType.from_u8 (b : Nat) : Option FrameType :=
  match b with
  | 1 => some .full
  | 2 => some .first
  | 3 => some .middle
  | 4 => some .last
  | _ => none

/-- Modelled from the spec (§4.4): `is_first_frame_of_record` from the
missing `src/frame/header.rs` — a FULL or FIRST frame starts a record. -/
def FrameType.is_first_frame_of_record : FrameType → Bool
  | .full => true
  | .first => true
  | _ => false

/-- Modelled from the spec (§4.4): `is_last_frame_of_record` from the
missing `src/frame/header.rs` — a FULL or LAST frame ends a record. -/
def FrameType.is_last_frame_of_record : FrameType → Bool
  | .full => true
  | .last => true
  | _ => false

/-- Little-endian bytes of a value (`to_le_bytes`). -/
def leBytes (numBytes value : Nat) : List Nat :=
  (List.range numBytes).map (fun i => value / 256 ^ i % 256)

/-- Little-endian value of a byte list (`from_le_bytes`). -/
def leNat (l : List Nat) : Nat :=
  l.foldr (fun b acc => b % 256 + 256 * acc) 0

/-- `Header` (`src/lib.rs`): checksum, payload length, frame type. -/
structure Header where
  checksum : Nat
  len : Nat
  frame_type : FrameType
  deriving DecidableEq, Repr

/-- `Header::for_payload`. -/
def Header.for_payload (frame_type : FrameType) (payload : List Nat) : Header :=
  ⟨crc32 payload, payload.length, frame_type⟩

/-- `Header::check`: recompute the payload CRC and compare. -/
def Header.check (h : Header) (payload : List Nat) : Bool :=
  decide (crc32 payload = h.checksum)

/-- `Header::serialize` (`src/lib.rs`): checksum LE, length LE, type
byte. -/
def Header.serialize (h : Header) : List Nat :=
  leBytes 4 h.checksum ++ leBytes 2 h.len ++ [h.frame_type.toU8]

/-- `Header::deserialize` (`src/lib.rs`); the caller passes exactly
`HEADER_LEN` bytes. -/
def Header.deserialize (data : List Nat) : Option Header :=
  match FrameType.from_u8 (data.getD 6 0) with
  | none => none
  | some frame_type =>
      some ⟨leNat (data.take 4), leNat ((data.drop 4).take 2), frame_type⟩

/-- `FrameWriter` (`src/frame/writer.rs`): the byte sink (`BufWriter`) is
modelled by the list of bytes written so far; the writer starts at a block
boundary (`create_with_aligned_write`). -/
structure FrameWriter where
  out : List Nat
  current_block_len : Nat
  deriving DecidableEq, Repr

/-- `FrameWriter::create_with_aligned_write`. -/
def FrameWriter.create_with_aligned_write : FrameWriter := ⟨[], 0⟩

/-- `FrameWriter::available_num_bytes_in_block`. -/
def FrameWriter.available_num_bytes_in_block (w : FrameWriter) : Nat :=
  BLOCK_LEN - w.current_block_len

/-- `FrameWriter::max_writable_frame_length`. -/
def FrameWriter.max_writable_frame_length (w : FrameWriter) : Nat :=
  if w.available_num_bytes_in_block ≥ HEADER_LEN then
    w.available_num_bytes_in_block - HEADER_LEN
  else BLOCK_LEN - HEADER_LEN

/-- `FrameWriter::pad_block`: writes the remaining bytes of the block as
zeroes.  Note that the source does not reset `current_block_len` here. -/
def FrameWriter.pad_block (w : FrameWriter) : FrameWriter :=
  { w with out := w.out ++ List.replicate w.available_num_bytes_in_block 0 }

/-- `FrameWriter::write_frame` (`src/frame/writer.rs`).  The two `assert!`
statements are modelled as `none` on violation (the second, and the one
inside `Header::for_payload`, are implied by the first). -/
def FrameWriter.write_frame (w : FrameWriter) (frame_type : FrameType)
    (payload : List Nat) : Option FrameWriter :=
  let w := if w.available_num_bytes_in_block < HEADER_LEN then w.pad_block else w
  if payload.length ≤ w.max_writable_frame_length then
    let record_len := HEADER_LEN + payload.length
    if record_len ≤ BLOCK_LEN then
      some { out := w.out ++ (Header.for_payload frame_type payload).serialize
              ++ payload,
             current_block_len := (w.current_block_len + record_len) % BLOCK_LEN }
    else none
  else none

theorem Header.length_serialize (h : Header) : h.serialize.length = 7 := by
  simp [Header.serialize, leBytes]

/-- Evaluation of `write_frame` in its two control-flow shapes (with and
without padding). -/
theorem FrameWriter.write_frame_eq (w : FrameWriter) (t : FrameType)
    (p : List Nat) :
    (BLOCK_LEN - w.current_block_len < HEADER_LEN →
      p.length ≤ BLOCK_LEN - HEADER_LEN →
      w.write_frame t p =
        some ⟨w.out ++ List.replicate (BLOCK_LEN - w.current_block_len) 0 ++
            (Header.for_payload t p).serialize ++ p,
          (w.current_block_len + (HEADER_LEN + p.length)) % BLOCK_LEN⟩) ∧
    (¬ BLOCK_LEN - w.current_block_len < HEADER_LEN →
      p.length ≤ (BLOCK_LEN - w.current_block_len) - HEADER_LEN →
      w.write_frame t p =
        some ⟨w.out ++ (Header.for_payload t p).serialize ++ p,
          (w.current_block_len + (HEADER_LEN + p.length)) % BLOCK_LEN⟩) := by
  constructor
  · intro hsmall hlen
    have hsmall' : w.available_num_bytes_in_block < HEADER_LEN := hsmall
    have hmax : (FrameWriter.pad_block w).max_writable_frame_length =
        BLOCK_LEN - HEADER_LEN := by
      unfold FrameWriter.max_writable_frame_length
        FrameWriter.available_num_bytes_in_block FrameWriter.pad_block
      dsimp only
      rw [if_neg (by omega)]
    have hpad : (if w.available_num_bytes_in_block < HEADER_LEN then
        w.pad_block else w) = w.pad_block := if_pos hsmall'
    simp only [FrameWriter.write_frame, hpad, hmax]
    rw [if_pos hlen, if_pos (show HEADER_LEN + p.length ≤ BLOCK_LEN by
      unfold BLOCK_LEN HEADER_LEN at hlen ⊢
      omega)]
    rfl
  · intro hbig hlen
    have hbig' : ¬ w.available_num_bytes_in_block < HEADER_LEN := hbig
    have hmax : w.max_writable_frame_length =
        (BLOCK_LEN - w.current_block_len) - HEADER_LEN := by
      unfold FrameWriter.max_writable_frame_length
        FrameWriter.available_num_bytes_in_block
      rw [if_pos (by omega)]
    have hpad : (if w.available_num_bytes_in_block < HEADER_LEN then
        w.pad_block else w) = w := if_neg hbig'
    simp only [FrameWriter.write_frame, hpad, hmax]
    rw [if_pos hlen, if_pos (show HEADER_LEN + p.length ≤ BLOCK_LEN by
      unfold BLOCK_LEN HEADER_LEN at hlen hbig ⊢
      omega)]


theorem claim_c7_frame_crosses_block_after_pad :
    ((FrameWriter.create_with_aligned_write.write_frame .full
          (List.replicate 32755 0)).bind
        (fun w1 => (w1.write_frame .full []).bind
          (fun w2 => w2.write_frame .full (List.replicate 32760 0)))).map
        (fun w3 => (w3.out.length, w3.current_block_len)) =
      some (65542, 0) ∧
    ((FrameWriter.create_with_aligned_write.write_frame .full
          (List.replicate 32755 0)).bind
        (fun w1 => w1.write_frame .full [])).map
        (fun w2 => (w2.out.length, w2.current_block_len)) =
      some (32775, 1) ∧
    32775 % BLOCK_LEN + HEADER_LEN + 32760 > BLOCK_LEN := by
  have h1 := (FrameWriter.write_frame_eq FrameWriter.create_with_aligned_write
    .full (List.replicate 32755 0)).2
    (by unfold FrameWriter.create_with_aligned_write BLOCK_LEN HEADER_LEN
        dsimp only
        omega)
    (by simp only [List.length_replicate, FrameWriter.create_with_aligned_write,
          BLOCK_LEN, HEADER_LEN]
        omega)
  rw [show (FrameWriter.create_with_aligned_write.current_block_len +
      (HEADER_LEN + (List.replicate 32755 (0 : Nat)).length)) % BLOCK_LEN
    = 32762 from by rw [List.length_replicate]; rfl] at h1
  set out1 : List Nat := FrameWriter.create_with_aligned_write.out ++
    (Header.for_payload .full (List.replicate 32755 0)).serialize ++
    List.replicate 32755 0 with hout1
  have hlen1 : out1.length = 32762 := by
    rw [hout1]
    dsimp only [FrameWriter.create_with_aligned_write]
    rw [List.length_append, List.length_append, Header.length_serialize,
      List.length_replicate, List.length_nil]
  have h2 := (FrameWriter.write_frame_eq ⟨out1, 32762⟩ .full []).1
    (by unfold BLOCK_LEN HEADER_LEN
        dsimp only
        omega)
    (by simp only [List.length_nil, BLOCK_LEN, HEADER_LEN]
        omega)
  rw [show ((⟨out1, 32762⟩ : FrameWriter).current_block_len +
      (HEADER_LEN + (List.nil (α := Nat)).length)) % BLOCK_LEN = 1
    from by decide] at h2
  set out2 : List Nat := (⟨out1, 32762⟩ : FrameWriter).out ++
    List.replicate (BLOCK_LEN -
      (⟨out1, 32762⟩ : FrameWriter).current_block_len) 0 ++
    (Header.for_payload .full []).serialize ++ [] with hout2
  have hlen2 : out2.length = 32775 := by
    rw [hout2]
    dsimp only
    rw [List.length_append, List.length_append, List.length_append,
      Header.length_serialize, List.length_replicate, List.length_nil, hlen1]
    unfold BLOCK_LEN
    omega
  have h3 := (FrameWriter.write_frame_eq ⟨out2, 1⟩ .full
    (List.replicate 32760 0)).2
    (by unfold BLOCK_LEN HEADER_LEN
        dsimp only
        omega)
    (by simp only [List.length_replicate, BLOCK_LEN, HEADER_LEN]
        omega)
  rw [show ((⟨out2, 1⟩ : FrameWriter).current_block_len +
      (HEADER_LEN + (List.replicate 32760 (0 : Nat)).length)) % BLOCK_LEN
    = 0 from by rw [List.length_replicate]; decide] at h3
  have hlen3 : (out2 ++
      (Header.for_payload FrameType.full (List.replicate 32760 0)).serialize ++
      List.replicate 32760 0).length = 65542 := by
    rw [List.length_append, List.length_append, Header.length_serialize,
      List.length_replicate, hlen2]
  refine ⟨?_, ?_, ?_⟩
  · rw [h1, Option.some_bind]
    rw [h2, Option.some_bind]
    rw [h3, Option.map_some']
    dsimp only
    rw [hlen3]
  · rw [h1, Option.some_bind]
    rw [h2, Option.map_some']
    dsimp only
    rw [hlen2]
  · unfold BLOCK_LEN HEADER_LEN
    omega

/-- `ReadError` from `src/reader.rs`.  The `Io` variant cannot arise in
this pure model, where the byte source is a list. -/
inductive ReadError where
  | corruption
  deriving DecidableEq, Repr

/-- `InnerReader` from `src/reader.rs`.  `input` is what remains of the
underlying `io::Read`; `block` is the loaded prefix of the 32 KiB block
buffer, so `current_block_len = block.length` (the unloaded suffix of the
Rust array is never read). -/
structure InnerReader where
  input : List Nat
  block : List Nat
  in_block_offset : Nat
  block_dropped : Bool
  deriving DecidableEq, Repr

/-- `InnerReader::new`. -/
def InnerReader.new (input : List Nat) : InnerReader := ⟨input, [], 0, false⟩

/-- `InnerReader::available_num_bytes`. -/
def InnerReader.available_num_bytes (r : InnerReader) : Nat :=
  r.block.length - r.in_block_offset

/-- `InnerReader::fill_block_buffer`: when the block is complete, roll to
the next one (marking `block_dropped`); then read until the block is full
or the input is exhausted. -/
def InnerReader.fill_block_buffer (r : InnerReader) : InnerReader :=
  let r := if r.block.length = BLOCK_LEN then
      { r with block_dropped := true, block := [], in_block_offset := 0 }
    else r
  let takeLen := min (BLOCK_LEN - r.block.length) r.input.length
  { r with
    block := r.block ++ r.input.take takeLen,
    input := r.input.drop takeLen }

/-- `InnerReader::read_frame` from `src/reader.rs`, threading the record
buffer.  Note which corruption paths touch `block_dropped`: only the
length-overflow branch calls `drop_block`. -/
def InnerReader.read_frame (r : InnerReader) (record_buffer : List Nat) :
    Except ReadError (Option FrameType) × InnerReader × List Nat :=
  let r := if r.available_num_bytes < HEADER_LEN then r.fill_block_buffer
    else r
  if r.available_num_bytes < HEADER_LEN then (.ok none, r, record_buffer)
  else
    match Header.deserialize
        ((r.block.drop r.in_block_offset).take HEADER_LEN) with
    | none => (.error .corruption, r, record_buffer)
    | some header =>
        let frame_start := r.in_block_offset + HEADER_LEN
        let frame_end := frame_start + header.len
        if frame_end > BLOCK_LEN then
          (.error .corruption, { r with block_dropped := true }, record_buffer)
        else
          let r := if r.block.length < frame_end then r.fill_block_buffer
            else r
          if r.block.length < frame_end then (.ok none, r, record_buffer)
          else
            let frame_payload := (r.block.take frame_end).drop frame_start
            let r := { r with in_block_offset := frame_end }
            if ! header.check frame_payload then
              (.error .corruption, r, record_buffer)
            else
              (.ok (some header.frame_type), r,
                (if header.frame_type.is_first_frame_of_record then []
                 else record_buffer) ++ frame_payload)

/-- The `while` loop of `InnerReader::read_record`, with explicit fuel:
`none` means the fuel ran out (the Rust loop terminates, and any fuel of
at least the number of frames consumed returns the loop's result). -/
def InnerReader.read_record_loop :
    Nat → InnerReader → List Nat →
      Option (Except ReadError (Option (List Nat)) × InnerReader × List Nat)
  | 0, _, _ => none
  | fuel + 1, r, record_buffer =>
      match r.read_frame record_buffer with
      | (.error e, r1, rb1) => some (.error e, r1, rb1)
      | (.ok none, r1, rb1) => some (.ok none, r1, rb1)
      | (.ok (some frame_type), r1, rb1) =>
          if frame_type.is_last_frame_of_record then
            some (.ok (some rb1), r1, rb1)
          else InnerReader.read_record_loop fuel r1 rb1

/-- `InnerReader::read_record` from `src/reader.rs` (fuelled). -/
def InnerReader.read_record (fuel : Nat) (r : InnerReader)
    (record_buffer : List Nat) :
    Option (Except ReadError (Option (List Nat)) × InnerReader × List Nat) :=
  if r.block_dropped then
    let r := r.fill_block_buffer
    if r.block.length ≠ BLOCK_LEN then some (.ok none, r, record_buffer)
    else
      InnerReader.read_record_loop fuel
        { r with block_dropped := false, in_block_offset := BLOCK_LEN }
        record_buffer
  else InnerReader.read_record_loop fuel r record_buffer

/-- Claim C4 counterexample: a 14-byte input holding two zero-length FULL
frames in the same block, the first with a wrong checksum (1 instead of
0), the second valid.  The first `read_record` reports `Corruption` with
the cursor at offset 7 and the block not dropped; the second `read_record`
then returns the second frame's record from the very same block, the
cursor moving to 14 — the reader did not skip to the next block boundary,
contradicting the claim that every `Corruption` costs the rest of the
block. -/
theorem claim_c4_checksum_corruption_not_skipped :
    InnerReader.read_record 2
        (InnerReader.new [1, 0, 0, 0, 0, 0, 1, 0, 0, 0, 0, 0, 0, 1]) [] =
      some (.error .corruption,
        ⟨[], [1, 0, 0, 0, 0, 0, 1, 0, 0, 0, 0, 0, 0, 1], 7, false⟩, []) ∧
    InnerReader.read_record 2
        ⟨[], [1, 0, 0, 0, 0, 0, 1, 0, 0, 0, 0, 0, 0, 1], 7, false⟩ [] =
      some (.ok (some []),
        ⟨[], [1, 0, 0, 0, 0, 0, 1, 0, 0, 0, 0, 0, 0, 1], 14, false⟩, []) :=
  ⟨rfl, rfl⟩

/-- Claim C4 (amended): with a full header available in the loaded block,
`read_frame` handles the three corruption causes differently — an invalid
type byte returns `Corruption` leaving the reader untouched (the cursor
does not advance); a declared length overflowing the block returns
`Corruption` and marks the block dropped (only this case skips the rest of
the block); a checksum mismatch returns `Corruption` with the cursor
advanced just past the corrupt frame, so the next read resumes within the
same block. -/
theorem claim_c4_corruption_cases (r : InnerReader) (rb : List Nat)
    (havail : r.in_block_offset + HEADER_LEN ≤ r.block.length) :
    (Header.deserialize ((r.block.drop r.in_block_offset).take HEADER_LEN) =
        none →
      r.read_frame rb = (.error .corruption, r, rb)) ∧
    (∀ h : Header,
      Header.deserialize ((r.block.drop r.in_block_offset).take HEADER_LEN) =
        some h →
      r.in_block_offset + HEADER_LEN + h.len > BLOCK_LEN →
      r.read_frame rb =
        (.error .corruption, { r with block_dropped := true }, rb)) ∧
    (∀ h : Header,
      Header.deserialize ((r.block.drop r.in_block_offset).take HEADER_LEN) =
        some h →
      r.in_block_offset + HEADER_LEN + h.len ≤ BLOCK_LEN →
      r.in_block_offset + HEADER_LEN + h.len ≤ r.block.length →
      h.check ((r.block.take (r.in_block_offset + HEADER_LEN + h.len)).drop
        (r.in_block_offset + HEADER_LEN)) = false →
      r.read_frame rb =
        (.error .corruption,
          { r with in_block_offset := r.in_block_offset + HEADER_LEN + h.len },
          rb)) := by
  have hge : ¬ r.available_num_bytes < HEADER_LEN := by
    unfold InnerReader.available_num_bytes
    omega
  have hif : (if r.available_num_bytes < HEADER_LEN then r.fill_block_buffer
      else r) = r := if_neg hge
  refine ⟨?_, ?_, ?_⟩
  · intro hdes
    simp only [InnerReader.read_frame, hif, if_neg hge, hdes]
  · intro h hdes hover
    simp only [InnerReader.read_frame, hif, if_neg hge, hdes]
    rw [if_pos hover]
  · intro h hdes hle hfits hchk
    simp only [InnerReader.read_frame, hif, if_neg hge, hdes]
    rw [if_neg (by omega)]
    have hfill : (if r.block.length < r.in_block_offset + HEADER_LEN + h.len
        then r.fill_block_buffer else r) = r := if_neg (by omega)
    simp only [hfill]
    rw [if_neg (by omega), hchk]
    rfl

/-- Claim C4 witness: each of the three corruption cases of the amended
claim at a concrete one-frame block — type byte 0, declared length
`0xFFFF`, and a zero-length frame whose stored checksum 1 is not
`crc32([]) = 0`. -/
theorem claim_c4_corruption_cases_witness :
    InnerReader.read_frame ⟨[], [0, 0, 0, 0, 0, 0, 0], 0, false⟩ [] =
      (.error .corruption, ⟨[], [0, 0, 0, 0, 0, 0, 0], 0, false⟩, []) ∧
    InnerReader.read_frame ⟨[], [0, 0, 0, 0, 255, 255, 1], 0, false⟩ [] =
      (.error .corruption, ⟨[], [0, 0, 0, 0, 255, 255, 1], 0, true⟩, []) ∧
    InnerReader.read_frame ⟨[], [1, 0, 0, 0, 0, 0, 1], 0, false⟩ [] =
      (.error .corruption, ⟨[], [1, 0, 0, 0, 0, 0, 1], 7, false⟩, []) :=
  ⟨(claim_c4_corruption_cases ⟨[], [0, 0, 0, 0, 0, 0, 0], 0, false⟩ []
      (by decide)).1 (by decide),
   (claim_c4_corruption_cases ⟨[], [0, 0, 0, 0, 255, 255, 1], 0, false⟩ []
      (by decide)).2.1 ⟨0, 65535, .full⟩ (by decide) (by decide),
   (claim_c4_corruption_cases ⟨[], [1, 0, 0, 0, 0, 0, 1], 0, false⟩ []
      (by decide)).2.2 ⟨1, 0, .full⟩ (by decide) (by decide) (by decide)
      (by decide)⟩

/-- `RecordType` from `src/rolling/record.rs`: `AppendRecord = 0`,
`Truncate = 1`, `Touch = 2`. -/
inductive RecordType where
  | appendRecord
  | truncate
  | touch
  deriving DecidableEq, Repr

/-- `RecordType::try_from` (`src/rolling/record.rs` lines 30–41): only the
codes 0, 1, 2 are valid. -/
def RecordType.try_from (code : Nat) : Option RecordType :=
  match code with
  | 0 => some .appendRecord
  | 1 => some .truncate
  | 2 => some .touch
  | _ => none

/-- `rolling::Record` as decoded from bytes; the queue name is kept as its
UTF-8 bytes (which `str::from_utf8` validated). -/
inductive Record where
  | appendRecord (position : Nat) (queue : List Nat) (payload : List Nat)
  | truncateRecord (position : Nat) (queue : List Nat)
  | touch (position : Nat) (queue : List Nat)
  deriving DecidableEq, Repr

/-- The outcome of running `Record::deserialize` on a buffer: a Rust
panic (out-of-bounds slicing or indexing), the `None` decode error, or a
decoded record. -/
inductive DeserializeResult where
  | panicked
  | decodeError
  | ok (record : Record)
  deriving DecidableEq, Repr

/-- A UTF-8 continuation byte (`0x80..=0xBF`). -/
def utf8Cont (b : Nat) : Bool := decide (128 ≤ b ∧ b < 192)

/-- Well-formed UTF-8 per RFC 3629, the property `std::str::from_utf8`
checks: shortest forms only, no surrogates, code points at most
`U+10FFFF`. -/
def utf8Valid : List Nat → Bool
  | [] => true
  | b :: rest =>
    if b < 0x80 then utf8Valid rest
    else if 0xC2 ≤ b ∧ b ≤ 0xDF then
      match rest with
      | c1 :: rest2 => utf8Cont c1 && utf8Valid rest2
      | [] => false
    else if b = 0xE0 then
      match rest with
      | c1 :: c2 :: rest2 =>
          decide (0xA0 ≤ c1 ∧ c1 ≤ 0xBF) && utf8Cont c2 && utf8Valid rest2
      | _ => false
    else if b = 0xED then
      match rest with
      | c1 :: c2 :: rest2 =>
          decide (0x80 ≤ c1 ∧ c1 ≤ 0x9F) && utf8Cont c2 && utf8Valid rest2
      | _ => false
    else if (0xE1 ≤ b ∧ b ≤ 0xEC) ∨ (0xEE ≤ b ∧ b ≤ 0xEF) then
      match rest with
      | c1 :: c2 :: rest2 => utf8Cont c1 && utf8Cont c2 && utf8Valid rest2
      | _ => false
    else if b = 0xF0 then
      match rest with
      | c1 :: c2 :: c3 :: rest2 =>
          decide (0x90 ≤ c1 ∧ c1 ≤ 0xBF) && utf8Cont c2 && utf8Cont c3 &&
            utf8Valid rest2
      | _ => false
    else if 0xF1 ≤ b ∧ b ≤ 0xF3 then
      match rest with
      | c1 :: c2 :: c3 :: rest2 =>
          utf8Cont c1 && utf8Cont c2 && utf8Cont c3 && utf8Valid rest2
      | _ => false
    else if b = 0xF4 then
      match rest with
      | c1 :: c2 :: c3 :: rest2 =>
          decide (0x80 ≤ c1 ∧ c1 ≤ 0x8F) && utf8Cont c2 && utf8Cont c3 &&
            utf8Valid rest2
      | _ => false
    else false

/-- `Record::deserialize` from `src/rolling/record.rs` lines 78–96,
faithful to the source's order of operations: `buffer[0]` before any
length check (panics on an empty buffer), then `if buffer.len() < 8`
(note: 8, not 11) returning the decode error, then the slices
`buffer[1..9]` and `buffer[9..11]` (panicking for lengths 8–10), then
`buffer[11..][..queue_len]` (panicking when the declared name length
extends past the end), then the UTF-8 check. -/
def Record.deserialize (buffer : List Nat) : DeserializeResult :=
  match buffer.get? 0 with
  | none => .panicked
  | some b0 =>
      match RecordType.try_from b0 with
      | none => .decodeError
      | some enum_tag =>
          if buffer.length < 8 then .decodeError
          else if buffer.length < 11 then .panicked
          else
            let position := leNat ((buffer.drop 1).take 8)
            let queue_len := leNat ((buffer.drop 9).take 2)
            if 11 + queue_len > buffer.length then .panicked
            else
              let queue := (buffer.drop 11).take queue_len
              if utf8Valid queue then
                let payload := buffer.drop (11 + queue_len)
                match enum_tag with
                | .appendRecord => .ok (.appendRecord position queue payload)
                | .truncate => .ok (.truncateRecord position queue)
                | .touch => .ok (.touch position queue)
              else .decodeError

/-- Claim C8 counterexample: the empty buffer makes `Record::deserialize`
index `buffer[0]` out of bounds (a panic), where the claim promises a
decode error for every buffer shorter than 11 bytes; and an 11-byte
buffer with tag byte 3 yields a decode error, where the claim lists 3
(`DeleteQueue`) among the valid tags — this revision of
`src/rolling/record.rs` (and its own test, which counts exactly 3 record
types) has no `DeleteQueue`. -/
theorem claim_c8_decode_counterexample :
    Record.deserialize [] = .panicked ∧
    Record.deserialize [3, 0, 0, 0, 0, 0, 0, 0, 0, 0, 0] = .decodeError := by
  decide

/-- Claim C8 (amended): the valid tags are `Append = 0`, `Truncate = 1`,
`Touch = 2`, and every tag byte `≥ 3` yields a decode error; a non-empty
buffer shorter than 8 bytes with a valid tag yields a decode error, but
the empty buffer, buffers of length 8–10 with a valid tag, and buffers
whose declared queue-name length extends past the buffer end panic
(out-of-bounds indexing) instead of yielding a decode error. -/
theorem claim_c8_decode_behaviour (buffer : List Nat) :
    (RecordType.try_from 0).isSome = true ∧
    (RecordType.try_from 1).isSome = true ∧
    (RecordType.try_from 2).isSome = true ∧
    (∀ b, 3 ≤ b → RecordType.try_from b = none) ∧
    (buffer = [] → Record.deserialize buffer = .panicked) ∧
    (∀ b0, buffer.get? 0 = some b0 → RecordType.try_from b0 = none →
      Record.deserialize buffer = .decodeError) ∧
    (∀ b0 t, buffer.get? 0 = some b0 → RecordType.try_from b0 = some t →
      buffer.length < 8 → Record.deserialize buffer = .decodeError) ∧
    (∀ b0 t, buffer.get? 0 = some b0 → RecordType.try_from b0 = some t →
      8 ≤ buffer.length → buffer.length < 11 →
      Record.deserialize buffer = .panicked) ∧
    (∀ b0 t, buffer.get? 0 = some b0 → RecordType.try_from b0 = some t →
      11 ≤ buffer.length →
      buffer.length < 11 + leNat ((buffer.drop 9).take 2) →
      Record.deserialize buffer = .panicked) := by
  refine ⟨rfl, rfl, rfl, ?_, ?_, ?_, ?_, ?_, ?_⟩
  · intro b hb
    match b, hb with
    | n + 3, _ => rfl
  · intro hb
    subst hb
    rfl
  · intro b0 h0 ht
    unfold Record.deserialize
    rw [h0]
    dsimp only
    rw [ht]
  · intro b0 t h0 ht hlen
    unfold Record.deserialize
    rw [h0]
    dsimp only
    rw [ht]
    dsimp only
    rw [if_pos hlen]
  · intro b0 t h0 ht hlen8 hlen11
    unfold Record.deserialize
    rw [h0]
    dsimp only
    rw [ht]
    dsimp only
    rw [if_neg (by omega), if_pos hlen11]
  · intro b0 t h0 ht hlen11 hname
    unfold Record.deserialize
    rw [h0]
    dsimp only
    rw [ht]
    dsimp only
    rw [if_neg (by omega), if_neg (by omega), if_pos (by omega)]

/-- Claim C8 witness: the amended behaviour at concrete buffers — tag 9 is
a decode error; a valid tag with a 3-byte buffer is a decode error; a
valid tag with a 9-byte buffer panics; a 12-byte buffer declaring a
5-byte queue name that extends past the end panics. -/
theorem claim_c8_decode_behaviour_witness :
    RecordType.try_from 9 = none ∧
    Record.deserialize [9] = .decodeError ∧
    Record.deserialize [1, 2, 3] = .decodeError ∧
    Record.deserialize [2, 0, 0, 0, 0, 0, 0, 0, 0] = .panicked ∧
    Record.deserialize [0, 0, 0, 0, 0, 0, 0, 0, 0, 5, 0, 65] = .panicked :=
  ⟨(claim_c8_decode_behaviour []).2.2.2.1 9 (by decide),
   (claim_c8_decode_behaviour [9]).2.2.2.2.2.1 9 rfl (by decide),
   (claim_c8_decode_behaviour [1, 2, 3]).2.2.2.2.2.2.1 1 .truncate rfl rfl
     (by decide),
   (claim_c8_decode_behaviour [2, 0, 0, 0, 0, 0, 0, 0, 0]).2.2.2.2.2.2.2.1 2
     .touch rfl rfl (by decide) (by decide),
   (claim_c8_decode_behaviour
       [0, 0, 0, 0, 0, 0, 0, 0, 0, 5, 0, 65]).2.2.2.2.2.2.2.2 0
     .appendRecord rfl rfl (by decide) (by decide)⟩

end Recordlog

